import Mathlib

/-!
Verification of the UCI command interpreter and move-notation codec of
`src/src/uci.cpp` (stockfish.js).  The file shallowly embeds the functions of
that translation unit over an abstract model of the external collaborators
(`Position`, `MoveList<LEGAL>`, the options table, the C++ input streams),
which are declared by `position.h`, `movegen.h`, `ucioption.cpp` and the C++
standard library and are not part of the given sources; those parts are
modelled from the specification's description of their call contracts.
-/

namespace SF

/-- Modelled from the spec: the move-kind tag of the opaque `Move` value
(`{normal, castling, promotion, en-passant, null, none}`); the `Move` type and
its accessors live in the excluded types header. -/
inductive MoveKind where
  | normal
  | promotion
  | enpassant
  | castling
  | null
  | none
deriving DecidableEq

/-- Modelled from the spec: a `Move` identifies a from-square, a to-square, a
move-kind tag and (for promotions) a target piece type; equality is by value.
Squares are integers `0..63` with `file = s % 8`, `rank = s / 8` (so `a1 = 0`,
`h1 = 7`, `a8 = 56`); piece types are indices into the `" PNBRQK"` table of the
source (`PAWN = 1`, ..., `KING = 6`). -/
structure Move where
  kind : MoveKind
  fromSq : Nat
  toSq : Nat
  promotionType : Nat
deriving DecidableEq

/-- Modelled from the spec: `MOVE_NONE`, the none-sentinel, distinct from all
playable moves. -/
def MOVE_NONE : Move := ⟨MoveKind.none, 0, 0, 0⟩

/-- Modelled from the spec: `MOVE_NULL`, the null-move sentinel. -/
def MOVE_NULL : Move := ⟨MoveKind.null, 0, 0, 0⟩

/-- Modelled from the spec: `make_move` builds a plain (normal-kind) move from
a from-square and a to-square, as used by the SAN disambiguation loop. -/
def make_move (f t : Nat) : Move := ⟨MoveKind.normal, f, t, 0⟩

/-- Modelled from the spec: the file (0..7) of a square. -/
def file_of (s : Nat) : Nat := s % 8

/-- Modelled from the spec: the rank (0..7) of a square. -/
def rank_of (s : Nat) : Nat := s / 8

/-- Modelled from the spec: the square with the given file and rank. -/
def make_square (f r : Nat) : Nat := 8 * r + f

/-- Modelled from the spec: file `g`, the classical king-side castling
destination file. -/
def FILE_G : Nat := 6

/-- Modelled from the spec: file `c`, the classical queen-side castling
destination file. -/
def FILE_C : Nat := 2

/-- Modelled from the spec: the pawn piece-type index (index 1 of the
source's `" PNBRQK"` table). -/
def PAWN : Nat := 1

/-- The file letter of a square (`'a' + file_of s`), from `UCI::format_square`. -/
def fileChar (s : Nat) : Char := Char.ofNat (97 + file_of s)

/-- The rank digit of a square (`'1' + rank_of s`), from `UCI::format_square`. -/
def rankChar (s : Nat) : Char := Char.ofNat (49 + rank_of s)

/-- `UCI::format_square`: a square prints as file letter followed by rank
digit (`g1`, `a7`, ...). -/
def format_square (s : Nat) : String := String.mk [fileChar s, rankChar s]

/-- The `" pnbrqk"` table used by `UCI::format_move` for the promotion
letter. -/
def promoChars : String := " pnbrqk"

/-- The promotion letter of a piece type: `" pnbrqk"[pt]` (out-of-range
indices fall back to a blank; in the engine they are unreachable). -/
def promoChar (pt : Nat) : Char := promoChars.data.getD pt ' '

/-- `UCI::format_move`: converts a move to coordinate notation.  `MOVE_NONE`
prints as `(none)`, `MOVE_NULL` as `0000`; a castling move in non-Chess960
mode has its destination normalized from the internal king-captures-rook
square to the classical king landing square (file g king-side, file c
queen-side, on the king's rank); promotions append the lowercase promotion
letter. -/
def format_move (m : Move) (chess960 : Bool) : String :=
  if m = MOVE_NONE then "(none)"
  else if m = MOVE_NULL then "0000"
  else
    let f := m.fromSq
    let t :=
      if m.kind = MoveKind.castling ∧ chess960 = false then
        make_square (if m.fromSq < m.toSq then FILE_G else FILE_C) (rank_of m.fromSq)
      else m.toSq
    let s := format_square f ++ format_square t
    if m.kind = MoveKind.promotion then s ++ String.mk [promoChar m.promotionType] else s

/-- Modelled from the spec: the view of the position reached by hypothetically
applying one move (`Position::do_move`): whether the side to move is in check,
and its legal replies (`MoveList<LEGAL>` of the resulting position). -/
structure MovedView where
  inCheck : Bool
  legalReplies : List Move
deriving DecidableEq

/-- Modelled from the spec: the interface this core requires of the external
`Position` object: the Chess960 flag, the side to move, the legal-move list
(`MoveList<LEGAL>`), per-square piece types, attack / piece-set / pin queries
(bitboards are naturals whose bits are squares), the pin-legality test
`Position::legal(m, pinned)`, the capture test, the Zobrist key, and the view
of the position after a move.  Only these operations are called by the
embedded code; their internal algorithms are out of scope. -/
structure Position where
  chess960 : Bool
  sideToMove : Nat
  legal : List Move
  pieceTypeOn : Nat → Nat
  attacksFrom : Nat → Nat → Nat
  pieces : Nat → Nat → Nat
  pinnedPieces : Nat → Nat
  legalPin : Move → Nat → Bool
  isCapture : Move → Bool
  key : Nat
  after : Move → MovedView

/-- Modelled from the spec: C `tolower` in the default locale maps the ASCII
uppercase letters to lowercase and is the identity elsewhere. -/
def toLowerChar (c : Char) : Char :=
  if 65 ≤ c.toNat ∧ c.toNat ≤ 90 then Char.ofNat (c.toNat + 32) else c

/-- The in-place mutation at the head of `UCI::to_move`: a token of length
exactly 5 has its fifth character lowercased (tolerating an uppercase
promotion letter); any other length is left untouched. -/
def lowerFifth (s : String) : String :=
  if s.data.length = 5 then String.mk (s.data.set 4 (toLowerChar (s.data.getD 4 ' '))) else s

/-- The search loop of `UCI::to_move`: scan the legal-move list and return the
first move whose coordinate format equals the token, else `MOVE_NONE`. -/
def firstLegalMatch (chess960 : Bool) (str : String) : List Move → Move
  | [] => MOVE_NONE
  | mv :: rest =>
      if str = format_move mv chess960 then mv else firstLegalMatch chess960 str rest

/-- `UCI::to_move`: lowercases the fifth character of a length-5 token in
place (the argument is a mutable reference, so the pair returned here carries
the caller's token after the call), then returns the first legal move whose
coordinate format matches the token, or `MOVE_NONE`. -/
def to_move (pos : Position) (str : String) : Move × String :=
  let str2 := lowerFifth str
  (firstLegalMatch pos.chess960 str2 pos.legal, str2)

/-- Modelled from the spec: `VALUE_MATE`, the mate score constant of the
excluded types header; only its ordering relative to the mate threshold
matters to the claims, the numeral is the engine family's conventional one. -/
def VALUE_MATE : Int := 32000

/-- Modelled from the spec: the mate threshold (`VALUE_MATE_IN_MAX_PLY`);
scores whose magnitude reaches it are printed as mate distances. -/
def VALUE_MATE_IN_MAX_PLY : Int := 31880

/-- Modelled from the spec: the endgame pawn value used as the centipawn
scale. -/
def PawnValueEg : Int := 258

/-- `UCI::format_value`: scores below the mate threshold print as
`cp <centipawns>` (value scaled by 100 over the pawn value, C++ truncated
division); scores at or above it print as `mate <moves>` (moves, not plies);
a trailing ` lowerbound` is appended when the value is at least beta, else
` upperbound` when at most alpha, else nothing. -/
def format_value (v alpha beta : Int) : String :=
  (if |v| < VALUE_MATE_IN_MAX_PLY then
     "cp " ++ toString (Int.tdiv (v * 100) PawnValueEg)
   else
     "mate " ++ toString (Int.tdiv (if 0 < v then VALUE_MATE - v + 1 else -VALUE_MATE - v) 2))
  ++ (if beta ≤ v then " lowerbound" else if v ≤ alpha then " upperbound" else "")

/-- The claim-side suffix rule of `format_value`, stated as in the spec:
` lowerbound` exactly when the value is at least beta, ` upperbound` exactly
when it is at most alpha (and below beta), nothing otherwise. -/
def boundSuffix (v alpha beta : Int) : String :=
  if beta ≤ v then " lowerbound" else if v ≤ alpha then " upperbound" else ""

/-- The score body of `format_value` (the part before any bound suffix). -/
def scoreBody (v : Int) : String :=
  if |v| < VALUE_MATE_IN_MAX_PLY then
    "cp " ++ toString (Int.tdiv (v * 100) PawnValueEg)
  else
    "mate " ++ toString (Int.tdiv (if 0 < v then VALUE_MATE - v + 1 else -VALUE_MATE - v) 2)

/-- Modelled from the spec: `Position::gives_check` reports whether playing
the move puts the opponent in check, i.e. whether the position reached by
hypothetically applying the move is in check. -/
def gives_check (pos : Position) (m : Move) : Bool := (pos.after m).inCheck

/-- The `" PNBRQK"` table of the source (`PieceToChar[WHITE]`), used for the
upper-case SAN piece letters. -/
def PieceToCharWhite : String := " PNBRQK"

/-- The SAN letter of a piece type: `PieceToChar[WHITE][pt]`. -/
def pieceChar (pt : Nat) : Char := PieceToCharWhite.data.getD pt ' '

/-- Modelled from the spec: the bitboard of the eight squares of one file
(`file_bb`); bit `s` is set exactly when square `s` lies on the file. -/
def fileBBn (f : Nat) : Nat :=
  (List.range 8).foldl (fun a r => a ||| (1 <<< (8 * r + f))) 0

/-- Modelled from the spec: the bitboard of the eight squares of one rank
(`rank_bb`). -/
def rankBBn (r : Nat) : Nat :=
  (List.range 8).foldl (fun a fl => a ||| (1 <<< (8 * r + fl))) 0

/-- The candidate-filter loop of `UCI::move_to_san`: `while (b) { s =
pop_lsb(&b); if (!pos.legal(make_move(s, to), pinned)) others ^= s; }`.
`pop_lsb` enumerates the set bits of the 64-bit board `b` in increasing square
order, so the loop is rendered as a fold over the squares `0..63`, clearing
from `others` every candidate square whose move to the destination fails the
pin-legality test. -/
def sanOthersFilter (pos : Position) (t : Nat) (b : Nat) : Nat :=
  (List.range 64).foldl
    (fun acc s =>
      if b.testBit s && !(pos.legalPin (make_move s t) (pos.pinnedPieces pos.sideToMove)) then
        acc ^^^ (1 <<< s)
      else acc)
    b

/-- The disambiguation part of `UCI::move_to_san` for a non-pawn mover of
type `pt` from `f` to `t`: start from the same-type same-color pieces
attacking the destination, remove the mover (`^ from`), filter by
pin-legality, then choose nothing / origin file / origin rank / full origin
square, in that precedence order. -/
def sanDisambig (pos : Position) (pt f t : Nat) : String :=
  let b0 := (pos.attacksFrom pt t &&& pos.pieces pos.sideToMove pt) ^^^ (1 <<< f)
  let others := sanOthersFilter pos t b0
  if others = 0 then ""
  else if others &&& fileBBn (file_of f) = 0 then String.mk [fileChar f]
  else if others &&& rankBBn (rank_of f) = 0 then String.mk [rankChar f]
  else format_square f

/-- The SAN text of `UCI::move_to_san` before the check/mate suffix:
castling prints `O-O`/`O-O-O`; a non-pawn mover prints its piece letter and
disambiguator; a pawn capture prints its origin file; captures insert `x`;
the destination square is always appended; promotions append `=` and the
upper-case promotion letter. -/
def sanBody (pos : Position) (m : Move) : String :=
  let f := m.fromSq
  let t := m.toSq
  let pt := pos.pieceTypeOn f
  if m.kind = MoveKind.castling then (if f < t then "O-O" else "O-O-O")
  else
    let s1 :=
      if pt ≠ PAWN then String.mk [pieceChar pt] ++ sanDisambig pos pt f t
      else if pos.isCapture m then String.mk [fileChar f]
      else ""
    let s2 := s1 ++ (if pos.isCapture m then "x" else "")
    let s3 := s2 ++ format_square t
    if m.kind = MoveKind.promotion then s3 ++ "=" ++ String.mk [pieceChar m.promotionType]
    else s3

/-- `UCI::move_to_san`: the SAN text of a legal move, `(none)`/`(null)` for
the sentinels.  If the move gives check, the text is suffixed with `+` when
the resulting position has at least one legal reply and `#` when it has none;
the probe applies the move with `do_move` and restores the position with
`undo_move`, so the position handed back (second component) is the input
position itself. -/
def move_to_san (pos : Position) (m : Move) : String × Position :=
  if m = MOVE_NONE then ( "(none)", pos)
  else if m = MOVE_NULL then ( "(null)", pos)
  else
    if gives_check pos m then
      (sanBody pos m ++ (if (pos.after m).legalReplies.length ≠ 0 then "+" else "#"), pos)
    else (sanBody pos m, pos)

/-- The suffix-free tail of the SAN text of a non-castling non-pawn move (the
part after the piece letter and the disambiguator), used to state the
disambiguation claim. -/
def sanTail (pos : Position) (m : Move) : String :=
  (if pos.isCapture m then "x" else "")
  ++ format_square m.toSq
  ++ (if m.kind = MoveKind.promotion then "=" ++ String.mk [pieceChar m.promotionType] else "")
  ++ (if gives_check pos m then (if (pos.after m).legalReplies.length ≠ 0 then "+" else "#") else "")

/-- The claim-side candidate set of the SAN disambiguation: the squares of
same-type, same-color pieces other than the mover that attack the destination
and whose move there passes the pin-legality test. -/
def sanRival (pos : Position) (pt f t s : Nat) : Prop :=
  s < 64 ∧ s ≠ f
  ∧ (pos.attacksFrom pt t &&& pos.pieces pos.sideToMove pt).testBit s = true
  ∧ pos.legalPin (make_move s t) (pos.pinnedPieces pos.sideToMove) = true

/-- Modelled from the spec: a C++ `istringstream` holding the not yet
extracted whitespace-separated tokens, plus its fail flag.  Once the flag is
set every further extraction fails (`while (is >> token)` exits). -/
structure TokStream where
  toks : List String
  fail : Bool
deriving DecidableEq

/-- Modelled from the spec: `is >> token` — fails on a failed or exhausted
stream, otherwise extracts the next token. -/
def readTok (st : TokStream) : Option (String × TokStream) :=
  if st.fail then Option.none
  else
    match st.toks with
    | [] => Option.none
    | t :: r => some (t, {toks := r, fail := false})

/-- The numeric value of a digit run, most significant digit first. -/
def digitsVal (l : List Char) : Nat :=
  l.foldl (fun a c => 10 * a + (c.toNat - 48)) 0

/-- Modelled from the spec: the integer prefix of a token, as `operator>>`
on an integer reads it — an optional sign followed by a maximal run of
digits; `Option.none` when there is no digit (extraction failure), otherwise
the value and the unconsumed remainder of the token. -/
def intOfToken (t : String) : Option (Int × String) :=
  match t.data with
  | [] => Option.none
  | c :: r =>
    if c = '-' ∨ c = '+' then
      let ds := r.takeWhile (fun d => d.isDigit)
      if ds = [] then Option.none
      else some (if c = '-' then -(digitsVal ds : Int) else (digitsVal ds : Int),
                 String.mk (r.dropWhile (fun d => d.isDigit)))
    else
      let ds := (c :: r).takeWhile (fun d => d.isDigit)
      if ds = [] then Option.none
      else some ((digitsVal ds : Int),
                 String.mk ((c :: r).dropWhile (fun d => d.isDigit)))

/-- Modelled from the spec: `is >> <integer field>` with C++11 semantics —
on success the extracted value is stored and any unconsumed tail of the token
stays in the stream; on failure the fail flag is set and the stored value is
zero; extraction at end of stream also fails.  (Callers in `go()` only reach
this through a successful `is >> token`, so the incoming stream is never
already failed.) -/
def readIntTok (st : TokStream) : Int × TokStream :=
  if st.fail then (0, st)
  else
    match st.toks with
    | [] => (0, {toks := [], fail := true})
    | t :: r =>
      match intOfToken t with
      | some (v, rem) =>
          (v, {toks := if rem.data = [] then r else rem :: r, fail := false})
      | Option.none => (0, {toks := t :: r, fail := true})

/-- Modelled from the spec: `Search::LimitsType`, zero-initialized; a zero
numeric field means "unset" (engine default). -/
structure LimitsType where
  timeWhite : Int := 0
  timeBlack : Int := 0
  incWhite : Int := 0
  incBlack : Int := 0
  movestogo : Int := 0
  depth : Int := 0
  nodes : Int := 0
  movetime : Int := 0
  mate : Int := 0
  infinite : Bool := false
  ponder : Bool := false
  searchmoves : List Move := []
deriving DecidableEq

/-- The `searchmoves` run of `go()`: `while (is >> token)
limits.searchmoves.push_back(UCI::to_move(pos, token));` — every remaining
token is consumed and `to_move`'s result (the none-sentinel included) is
recorded. -/
def goSearchmoves (pos : Position) : List String → List Move
  | [] => []
  | t :: r => (to_move pos t).1 :: goSearchmoves pos r

/-- A fuel bound dominating the total number of characters a token stream can
yield, used to drive the `go()` token loop. -/
def tokBudget (toks : List String) : Nat :=
  (toks.map (fun t => t.data.length + 1)).sum + 1

def strSearchmoves : String := "searchmoves"
def strWtime : String := "wtime"
def strBtime : String := "btime"
def strWinc : String := "winc"
def strBinc : String := "binc"
def strMovestogo : String := "movestogo"
def strDepth : String := "depth"
def strNodes : String := "nodes"
def strMovetime : String := "movetime"
def strMate : String := "mate"
def strInfinite : String := "infinite"
def strPonder : String := "ponder"

/-- The token loop of `go()`: read a token, dispatch on the recognized
keywords (numeric keywords extract the following integer, flags set booleans,
`searchmoves` consumes the rest of the line, anything else is skipped), loop
until `is >> token` fails.  The fuel argument strictly exceeds the characters
available, so it never runs out at the call site `goParse`. -/
def goLoop (pos : Position) : Nat → TokStream → LimitsType → LimitsType
  | 0, _, limits => limits
  | fuel + 1, st, limits =>
    match readTok st with
    | Option.none => limits
    | some (t, st1) =>
      if t = strSearchmoves then
        goLoop pos fuel {toks := [], fail := true}
          {limits with searchmoves := limits.searchmoves ++ goSearchmoves pos st1.toks}
      else if t = strWtime then
        let r := readIntTok st1; goLoop pos fuel r.2 {limits with timeWhite := r.1}
      else if t = strBtime then
        let r := readIntTok st1; goLoop pos fuel r.2 {limits with timeBlack := r.1}
      else if t = strWinc then
        let r := readIntTok st1; goLoop pos fuel r.2 {limits with incWhite := r.1}
      else if t = strBinc then
        let r := readIntTok st1; goLoop pos fuel r.2 {limits with incBlack := r.1}
      else if t = strMovestogo then
        let r := readIntTok st1; goLoop pos fuel r.2 {limits with movestogo := r.1}
      else if t = strDepth then
        let r := readIntTok st1; goLoop pos fuel r.2 {limits with depth := r.1}
      else if t = strNodes then
        let r := readIntTok st1; goLoop pos fuel r.2 {limits with nodes := r.1}
      else if t = strMovetime then
        let r := readIntTok st1; goLoop pos fuel r.2 {limits with movetime := r.1}
      else if t = strMate then
        let r := readIntTok st1; goLoop pos fuel r.2 {limits with mate := r.1}
      else if t = strInfinite then
        goLoop pos fuel st1 {limits with infinite := true}
      else if t = strPonder then
        goLoop pos fuel st1 {limits with ponder := true}
      else
        goLoop pos fuel st1 limits

/-- `go()` of `uci.cpp`: parse the remaining tokens of the line into a fresh
`LimitsType` (the limits are then handed to the external search engine,
together with the const position and the setup-state stack). -/
def goParse (pos : Position) (toks : List String) : LimitsType :=
  goLoop pos (tokBudget toks) {toks := toks, fail := false} {}

/-- The claim-side list of the numeric `go` keywords. -/
def numericKws : List String :=
  [strWtime, strBtime, strWinc, strBinc, strMovestogo, strDepth, strNodes, strMovetime, strMate]

/-- The claim-side field update of one numeric `go` keyword. -/
def setNumField (kw : String) (v : Int) (limits : LimitsType) : LimitsType :=
  if kw = strWtime then {limits with timeWhite := v}
  else if kw = strBtime then {limits with timeBlack := v}
  else if kw = strWinc then {limits with incWhite := v}
  else if kw = strBinc then {limits with incBlack := v}
  else if kw = strMovestogo then {limits with movestogo := v}
  else if kw = strDepth then {limits with depth := v}
  else if kw = strNodes then {limits with nodes := v}
  else if kw = strMovetime then {limits with movetime := v}
  else if kw = strMate then {limits with mate := v}
  else limits

/-- The `go` parser the claim describes (refinement comparison only): on a
numeric argument that fails to parse, drop that argument and keep parsing the
remaining tokens of the line as if it were absent. -/
def goSpecLoop (pos : Position) : Nat → TokStream → LimitsType → LimitsType
  | 0, _, limits => limits
  | fuel + 1, st, limits =>
    match readTok st with
    | Option.none => limits
    | some (t, st1) =>
      if t = strSearchmoves then
        goSpecLoop pos fuel {toks := [], fail := true}
          {limits with searchmoves := limits.searchmoves ++ goSearchmoves pos st1.toks}
      else if t ∈ numericKws then
        match st1.toks with
        | [] => limits
        | a :: r =>
          match intOfToken a with
          | some (v, rem) =>
              goSpecLoop pos fuel {toks := if rem.data = [] then r else rem :: r, fail := false}
                (setNumField t v limits)
          | Option.none => goSpecLoop pos fuel {toks := r, fail := false} limits
      else if t = strInfinite then
        goSpecLoop pos fuel st1 {limits with infinite := true}
      else if t = strPonder then
        goSpecLoop pos fuel st1 {limits with ponder := true}
      else
        goSpecLoop pos fuel st1 limits

/-- The claim-side `go` parser at its natural fuel. -/
def goSpecParse (pos : Position) (toks : List String) : LimitsType :=
  goSpecLoop pos (tokBudget toks) {toks := toks, fail := false} {}

def strValue : String := "value"
def strName : String := "name"

/-- Splits a token list at the first `value` token (which is dropped), per
the name/value scan of `setoption()`. -/
def splitAtValue : List String → List String × List String
  | [] => ([], [])
  | t :: r =>
    if t = strValue then ([], r)
    else
      let p := splitAtValue r
      (t :: p.1, p.2)

/-- Joins tokens with single spaces, as `x += string(" ", !x.empty()) + token`
accumulates them. -/
def joinSp : List String → String
  | [] => ""
  | [t] => t
  | t :: r => t ++ " " ++ joinSp r

/-- Modelled from the spec: the options table, a mapping from option name to
current value, mutated only through `setoption`. -/
def lookupOpt : List (String × String) → String → Option String
  | [], _ => Option.none
  | e :: r, n => if e.1 = n then some e.2 else lookupOpt r n

/-- Modelled from the spec: assigning `Options[name] = value` for a name
already present updates that entry in place and adds nothing. -/
def updateOpt : List (String × String) → String → String → List (String × String)
  | [], _, _ => []
  | e :: r, n, v => if e.1 = n then (e.1, v) :: r else e :: updateOpt r n v

/-- The diagnostic line `setoption` emits for an unknown name. -/
def noSuchMsg (name : String) : String := "No such option: " ++ name

/-- `setoption()` of `uci.cpp`: consume the leading `name` token, join the
tokens before `value` with single spaces as the option name and the tokens
after it as the value, then either update the existing entry or emit exactly
one `No such option: <name>` diagnostic, leaving the table unchanged.
Returns the table and the emitted output lines. -/
def setoption (opts : List (String × String)) (toks : List String) :
    List (String × String) × List String :=
  let body := toks.drop 1
  let p := splitAtValue body
  let name := joinSp p.1
  let value := joinSp p.2
  if (lookupOpt opts name).isSome then (updateOpt opts name value, [])
  else (opts, [noSuchMsg name])

/-- The FEN string of the standard initial position (`StartFEN` of the
source). -/
def StartFEN : String := "rnbqkbnr/pppppppp/8/8/8/8/PPPPPPPP/RNBQKBNR w KQkq - 0 1"

/-- Modelled from the spec: the term model of the external mutable `Position`
held by the dispatcher, recording the sequence of interface calls that built
it: `set fen chess960` (`Position::set` / the constructor), `mv` (`do_move`),
and `flip` (`Position::flip`, which mirrors the board and swaps the side to
move, so a flipped position differs from the unflipped one). -/
inductive SPos where
  | set (fen : String) (chess960 : Bool)
  | mv (p : SPos) (m : Move)
  | flip (p : SPos)
deriving DecidableEq

/-- The Chess960 flag of a held position (`Position::is_chess960`): fixed by
`set`, preserved by moves and by `flip`. -/
def c960Of : SPos → Bool
  | SPos.set _ c => c
  | SPos.mv p _ => c960Of p
  | SPos.flip p => c960Of p

/-- Packages a held position and its legal-move oracle as the read-only
`Position` interface consumed by `UCI::to_move` (which reads only the legal
list and the Chess960 flag; the remaining fields are inert defaults). -/
def toPos (legalOf : SPos → List Move) (p : SPos) : Position :=
  { chess960 := c960Of p
    sideToMove := 0
    legal := legalOf p
    pieceTypeOn := fun _ => 0
    attacksFrom := fun _ _ => 0
    pieces := fun _ _ => 0
    pinnedPieces := fun _ => 0
    legalPin := fun _ _ => false
    isCapture := fun _ => false
    key := 0
    after := fun _ => ⟨false, []⟩ }

/-- The setup-move replay loop of `position()`: `while (is >> token && (m =
UCI::to_move(pos, token)) != MOVE_NONE) pos.do_move(m, ...)` — tokens are
consumed and applied until the first one `to_move` cannot resolve; the
sentinel is never applied.  Returns the final position and the list of moves
actually applied. -/
def replayMoves (legalOf : SPos → List Move) : SPos → List String → SPos × List Move
  | p, [] => (p, [])
  | p, t :: r =>
    let m := (to_move (toPos legalOf p) t).1
    if m = MOVE_NONE then (p, [])
    else
      let res := replayMoves legalOf (SPos.mv p m) r
      (res.1, m :: res.2)

/-- The FEN-collection loop of `position()`: `while (is >> token && token !=
"moves") fen += token + " ";` — tokens up to the first `moves` (or the end of
the line) are joined, each followed by one space. -/
def collectFen : List String → String × List String
  | [] => ( "", [])
  | t :: r =>
    if t = "moves" then ( "", r)
    else
      let p := collectFen r
      (t ++ " " ++ p.1, p.2)

def strEmpty : String := ""
def strStartpos : String := "startpos"
def strFen : String := "fen"

/-- The option key of the Chess960 toggle. -/
def chess960Key : String := "UCI_Chess960"

def strFalse : String := "false"
def strTrue : String := "true"

/-- Modelled from the spec: reading a check-box option as a boolean. -/
def optBool (opts : List (String × String)) (name : String) : Bool :=
  (lookupOpt opts name).getD strFalse = strTrue

/-- `position()` of `uci.cpp`: `startpos` selects the standard FEN and
unconditionally consumes one following token (the `moves` keyword if any);
`fen` collects the FEN fields up to `moves`; any other first token leaves the
position unchanged (the command is not accepted).  An accepted command
rebuilds the position from the FEN (honoring the Chess960 option) and replays
the setup moves.  The second component records the accepted command's FEN,
Chess960 flag and applied move list (`Option.none` when not accepted). -/
def position (legalOf : SPos → List Move) (opts : List (String × String))
    (p : SPos) (toks : List String) : SPos × Option (String × Bool × List Move) :=
  let c := optBool opts chess960Key
  match toks with
  | [] => (p, Option.none)
  | t :: rest =>
    if t = strStartpos then
      let res := replayMoves legalOf (SPos.set StartFEN c) (rest.drop 1)
      (res.1, some (StartFEN, c, res.2))
    else if t = strFen then
      let fenp := collectFen rest
      let res := replayMoves legalOf (SPos.set fenp.1 c) fenp.2
      (res.1, some (fenp.1, c, res.2))
    else (p, Option.none)

/-- The dispatcher state: the long-lived held position and options table,
plus the ghost record of the most recent accepted `position` command (its
FEN, the Chess960 flag in force when it was accepted, and its applied
setup-move list) used to state the held-position invariant. -/
structure DState where
  pos : SPos
  opts : List (String × String)
  lastAccepted : Option (String × Bool × List Move)
deriving DecidableEq

/-- `UCI::commandInit`: the dispatcher starts from the standard initial
position (`Position(StartFEN, false, ...)`), with no `position` command
accepted yet. -/
def commandInit (opts : List (String × String)) : DState :=
  { pos := SPos.set StartFEN false, opts := opts, lastAccepted := Option.none }

/-- Replays an accepted `position` command's record from scratch: set the
FEN, then apply the recorded move list. -/
def replayRecord (fen : String) (c : Bool) (ms : List Move) : SPos :=
  ms.foldl SPos.mv (SPos.set fen c)

/-- The claim-side invariant: the held position equals the FEN plus
fully-applied setup-move list of the most recent accepted `position` command,
or the standard initial position when none was ever accepted. -/
@[reducible] def heldInv (s : DState) : Prop :=
  s.pos = match s.lastAccepted with
          | Option.none => SPos.set StartFEN false
          | some r => replayRecord r.1 r.2.1 r.2.2

/-- `UCI::command`: tokenize one command line and dispatch.  `quit`, `stop`,
`ponderhit`, `ucinewgame`, `perft`, `bench`, `key`, `uci`, `d`, `isready` and
`eval` touch only external collaborators (search signals, transposition
table, benchmark, output) or read the position const; `go` parses limits and
hands the const position to the search engine; `position` replaces the held
position; `setoption` updates the options table; `flip` mirrors the held
position; anything else echoes an unknown-command diagnostic.  Returns the
new state and the output lines this model renders (diagnostics and
`readyok`; externally formatted dumps are modelled as empty). -/
def commandCore (legalOf : SPos → List Move) (s : DState) (token : String)
    (rest : List String) (line : List String) : DState × List String :=
  if token = "quit" ∨ token = "stop" ∨ token = "ponderhit" then (s, [])
  else if token = "perft" then (s, [])
  else if token = "key" then (s, [])
  else if token = "uci" then (s, [])
  else if token = "ucinewgame" then (s, [])
  else if token = "go" then
    let _limits := goParse (toPos legalOf s.pos) rest
    (s, [])
  else if token = "position" then
    let res := position legalOf s.opts s.pos rest
    ({s with pos := res.1,
             lastAccepted := match res.2 with
                             | Option.none => s.lastAccepted
                             | some r => some r}, [])
  else if token = "setoption" then
    let res := setoption s.opts rest
    ({s with opts := res.1}, res.2)
  else if token = "flip" then ({s with pos := SPos.flip s.pos}, [])
  else if token = "bench" then (s, [])
  else if token = "d" then (s, [])
  else if token = "isready" then (s, [ "readyok" ])
  else if token = "eval" then (s, [])
  else (s, [ "Unknown command: " ++ joinSp line ])

/-- `UCI::command` proper: extract the leading token and dispatch. -/
def command (legalOf : SPos → List Move) (s : DState) (line : List String) :
    DState × List String :=
  commandCore legalOf s (line.headD strEmpty) line.tail line

/-- A `Position` whose query fields are inert defaults; only the Chess960
flag and the legal-move list carry information (enough for `to_move` and the
parser entry points). -/
def inertPosition (c960 : Bool) (legal : List Move) : Position :=
  { chess960 := c960
    sideToMove := 0
    legal := legal
    pieceTypeOn := fun _ => 0
    attacksFrom := fun _ _ => 0
    pieces := fun _ _ => 0
    pinnedPieces := fun _ => 0
    legalPin := fun _ _ => false
    isCapture := fun _ => false
    key := 0
    after := fun _ => ⟨false, []⟩ }

/-- The double pawn push e2e4 (squares 12 → 28). -/
def mvE2E4 : Move := ⟨MoveKind.normal, 12, 28, 0⟩

/-- A position interface with no legal moves. -/
def P0 : Position := inertPosition false []

/-- A position interface whose only legal move is e2e4. -/
def P1 : Position := inertPosition false [mvE2E4]

/-- The twenty legal moves of the standard initial position: sixteen pawn
pushes and four knight moves. -/
def startLegalMoves : List Move :=
  [ ⟨MoveKind.normal, 8, 16, 0⟩, ⟨MoveKind.normal, 8, 24, 0⟩,
    ⟨MoveKind.normal, 9, 17, 0⟩, ⟨MoveKind.normal, 9, 25, 0⟩,
    ⟨MoveKind.normal, 10, 18, 0⟩, ⟨MoveKind.normal, 10, 26, 0⟩,
    ⟨MoveKind.normal, 11, 19, 0⟩, ⟨MoveKind.normal, 11, 27, 0⟩,
    ⟨MoveKind.normal, 12, 20, 0⟩, mvE2E4,
    ⟨MoveKind.normal, 13, 21, 0⟩, ⟨MoveKind.normal, 13, 29, 0⟩,
    ⟨MoveKind.normal, 14, 22, 0⟩, ⟨MoveKind.normal, 14, 30, 0⟩,
    ⟨MoveKind.normal, 15, 23, 0⟩, ⟨MoveKind.normal, 15, 31, 0⟩,
    ⟨MoveKind.normal, 1, 16, 0⟩, ⟨MoveKind.normal, 1, 18, 0⟩,
    ⟨MoveKind.normal, 6, 21, 0⟩, ⟨MoveKind.normal, 6, 23, 0⟩ ]

/-- The standard initial position's interface view. -/
def PStart : Position := inertPosition false startLegalMoves

/-- A position interface in which the probed move gives check with no legal
replies (checkmate) and the mover on e4 is a queen. -/
def P3 : Position :=
  { chess960 := false
    sideToMove := 0
    legal := [ ⟨MoveKind.normal, 28, 36, 0⟩ ]
    pieceTypeOn := fun _ => 5
    attacksFrom := fun _ _ => 0
    pieces := fun _ _ => 0
    pinnedPieces := fun _ => 0
    legalPin := fun _ _ => false
    isCapture := fun _ => false
    key := 7
    after := fun _ => ⟨true, []⟩ }

/-- The queen move e4e5 probed in `P3`. -/
def mvQ : Move := ⟨MoveKind.normal, 28, 36, 0⟩

/-- A position interface with two white rooks on a1 and d1 both able to reach
d4: the mover from a1 needs a file-letter disambiguator. -/
def P4 : Position :=
  { chess960 := false
    sideToMove := 0
    legal := [ ⟨MoveKind.normal, 0, 27, 0⟩ ]
    pieceTypeOn := fun s => if s = 0 ∨ s = 3 then 4 else 0
    attacksFrom := fun _ _ => 9
    pieces := fun _ _ => 9
    pinnedPieces := fun _ => 0
    legalPin := fun _ _ => true
    isCapture := fun _ => false
    key := 0
    after := fun _ => ⟨false, []⟩ }

/-- The rook move a1d4 disambiguated in `P4`. -/
def mvR : Move := ⟨MoveKind.normal, 0, 27, 0⟩

/-- A white king-side castling move in the internal king-captures-rook
encoding (e1 → h1). -/
def mvCastle : Move := ⟨MoveKind.castling, 4, 7, 0⟩

/-- A legal-move oracle for the dispatcher model: the standard initial
position offers e2e4, every other position nothing. -/
def legalW : SPos → List Move :=
  fun p => if p = SPos.set StartFEN false then [mvE2E4] else []

/-- An uppercase-promotion token of length five. -/
def tok5 : String := "E7E8Q"

/-- A small options table for the `setoption` witness. -/
def optsW : List (String × String) := [ (r"Hash", r"32") ]

/-- A `setoption` token list naming an option absent from `optsW`. -/
def toksW : List String := [ r"name", r"Foo", r"value", r"1" ]

/-- The `go` line of the numeric-failure counterexample: a malformed `wtime`
argument followed by a well-formed `depth` argument. -/
def cexToks : List String := [ r"wtime", r"abc", r"depth", r"5" ]

/-- The `go` line of the searchmoves counterexample: an unresolvable token
followed by a resolvable one. -/
def smToks : List String := [ r"searchmoves", r"zzzz", r"e2e4" ]

/-- The setup-move tokens of the replay witness. -/
def mvToksW : List String := [ r"e2e4", r"zzzz" ]

/-- The `flip` command token. -/
def strFlip : String := "flip"

/-- A token with no digits, failing integer extraction. -/
def badTok : String := "abc"

/-- The `position startpos moves e2e4` command line of the dispatcher
witness (already tokenized, command word first). -/
def posCmdW : List String := [ r"position", r"startpos", r"moves", r"e2e4" ]


/-- C7: for every castling move formatted by `format_move`, with the Chess960
flag false the printed destination is the classical king landing square (file
g when the internal destination, the rook square, is above the origin —
king-side — else file c) on the king's origin rank; with the flag true the
internal king-captures-rook destination is printed verbatim. -/
theorem format_move_castling (m : Move) (hk : m.kind = MoveKind.castling) :
    (format_move m false
       = format_square m.fromSq
         ++ format_square (make_square (if m.fromSq < m.toSq then FILE_G else FILE_C) (rank_of m.fromSq)))
    ∧ format_move m true = format_square m.fromSq ++ format_square m.toSq := by
  have h1 : m ≠ MOVE_NONE := by intro h; rw [h] at hk; simp [MOVE_NONE] at hk
  have h2 : m ≠ MOVE_NULL := by intro h; rw [h] at hk; simp [MOVE_NULL] at hk
  have h3 : ¬ m.kind = MoveKind.promotion := by rw [hk]; intro h; cases h
  constructor <;> simp [format_move, h1, h2, hk, h3]

theorem format_move_castling_w :
    format_move mvCastle false = "e1g1" ∧ format_move mvCastle true = "e1h1" := by
  have h := format_move_castling mvCastle rfl
  exact ⟨h.1.trans (by decide), h.2.trans (by decide)⟩

/-- C9: `format_value` produces the score body (`cp <x>` below the mate
threshold, `mate <y>` in moves at or above it) followed by a suffix that is
` lowerbound` exactly when the value is at least beta, ` upperbound` exactly
when it is at most alpha and below beta, and empty otherwise. -/
theorem format_value_bounds (v a b : Int) :
    format_value v a b = scoreBody v ++ boundSuffix v a b
    ∧ (boundSuffix v a b = " lowerbound" ↔ b ≤ v)
    ∧ (boundSuffix v a b = " upperbound" ↔ v ≤ a ∧ v < b)
    ∧ (boundSuffix v a b = "" ↔ a < v ∧ v < b)
    ∧ (|v| < VALUE_MATE_IN_MAX_PLY →
        scoreBody v = "cp " ++ toString (Int.tdiv (v * 100) PawnValueEg))
    ∧ (VALUE_MATE_IN_MAX_PLY ≤ |v| →
        scoreBody v = "mate "
          ++ toString (Int.tdiv (if 0 < v then VALUE_MATE - v + 1 else -VALUE_MATE - v) 2)) := by
  refine ⟨rfl, ?_, ?_, ?_, ?_, ?_⟩
  · by_cases hb : b ≤ v <;> by_cases ha : v ≤ a <;> simp [boundSuffix, hb, ha]
  · by_cases hb : b ≤ v <;> by_cases ha : v ≤ a <;> simp [boundSuffix, hb, ha] <;> omega
  · by_cases hb : b ≤ v <;> by_cases ha : v ≤ a <;> simp [boundSuffix, hb, ha] <;> omega
  · intro h; simp [scoreBody, h]
  · intro h; simp [scoreBody, not_lt.mpr h]

theorem format_value_bounds_w :
    format_value 31990 (-50) 50 = "mate 5 lowerbound" :=
  (format_value_bounds 31990 (-50) 50).1.trans (by decide)


/-- C10: `to_move` overwrites the fifth character of a length-5 token in
place with its lowercase form (the pair's second component is the caller's
string after the call), and leaves tokens of any other length unmodified. -/
theorem to_move_mutates_token (pos : Position) (s : String) :
    (s.data.length = 5 →
      ((to_move pos s).2).data = s.data.take 4 ++ [ toLowerChar (s.data.getD 4 ' ') ])
    ∧ (s.data.length ≠ 5 → (to_move pos s).2 = s) := by
  constructor
  · intro h5
    show (lowerFifth s).data = _
    rw [lowerFifth, if_pos h5]
    show s.data.set 4 (toLowerChar (s.data.getD 4 ' ')) = _
    rw [List.set_eq_take_append_cons_drop]
    rw [if_pos (by omega : 4 < s.data.length)]
    have : s.data.drop 5 = [] := List.drop_eq_nil_of_le (by omega)
    rw [this]
  · intro h
    show lowerFifth s = s
    rw [lowerFifth, if_neg h]

theorem to_move_mutates_token_w :
    (to_move P0 tok5).2.data = [ 'E', '7', 'E', '8', 'q' ] :=
  ((to_move_mutates_token P0 tok5).1 (by decide)).trans (by decide)

/-- C8: a `setoption` command whose parsed name is absent from the options
table leaves the table entirely unchanged and emits exactly one diagnostic
line `No such option: <name>`. -/
theorem setoption_unknown_name (opts : List (String × String)) (toks : List String)
    (h : lookupOpt opts (joinSp (splitAtValue (toks.drop 1)).1) = Option.none) :
    setoption opts toks
      = (opts, [ noSuchMsg (joinSp (splitAtValue (toks.drop 1)).1) ]) := by
  unfold setoption
  rw [List.drop_one] at h
  simp [h]

theorem setoption_unknown_name_w :
    setoption optsW toksW = (optsW, [ "No such option: Foo" ]) :=
  (setoption_unknown_name optsW toksW (by decide)).trans (by decide)


/-- Helper: the promotion letters are lowercase-stable under C `tolower`. -/
theorem toLowerChar_promoChar (pt : Nat) : toLowerChar (promoChar pt) = promoChar pt := by
  match pt with
  | 0 => decide
  | 1 => decide
  | 2 => decide
  | 3 => decide
  | 4 => decide
  | 5 => decide
  | 6 => decide
  | n + 7 =>
    have h : promoChars.data.getD (n + 7) ' ' = ' ' :=
      List.getD_eq_default _ _ (by simp [promoChars])
    rw [promoChar, h]
    decide

/-- Helper: four-character tokens are untouched by the lowercasing. -/
theorem lowerFifth_four (a b c d : Char) :
    lowerFifth (String.mk [ a, b, c, d ]) = String.mk [ a, b, c, d ] := by
  rw [lowerFifth, if_neg (by simp)]

/-- Helper: a five-character token whose last character is lowercase-stable
is untouched by the lowercasing. -/
theorem lowerFifth_five (a b c d e : Char) (he : toLowerChar e = e) :
    lowerFifth (String.mk [ a, b, c, d, e ]) = String.mk [ a, b, c, d, e ] := by
  rw [lowerFifth, if_pos (by simp)]
  simp [List.set, List.getD, he]

/-- Helper: coordinate formatting is a fixed point of the fifth-character
lowercasing of `to_move`. -/
theorem lowerFifth_format (m : Move) (c : Bool) :
    lowerFifth (format_move m c) = format_move m c := by
  by_cases h1 : m = MOVE_NONE
  · subst h1
    have e1 : format_move MOVE_NONE c = "(none)" := by simp [format_move]
    rw [e1]; decide
  by_cases h2 : m = MOVE_NULL
  · subst h2
    have e1 : format_move MOVE_NULL c = "0000" := by simp [format_move, MOVE_NONE, MOVE_NULL]
    rw [e1]; decide
  by_cases hp : m.kind = MoveKind.promotion
  · have e1 : format_move m c
        = String.mk [ fileChar m.fromSq, rankChar m.fromSq,
                      fileChar m.toSq, rankChar m.toSq, promoChar m.promotionType ] := by
      unfold format_move
      rw [if_neg h1, if_neg h2]
      simp only [hp]
      rfl
    rw [e1]
    exact lowerFifth_five _ _ _ _ _ (toLowerChar_promoChar _)
  · unfold format_move
    rw [if_neg h1, if_neg h2]
    simp only [if_neg hp]
    exact lowerFifth_four _ _ _ _

/-- Helper: in a legal-move list whose coordinate formats are pairwise
distinct, the first-match scan of `to_move` recovers the formatted move. -/
theorem firstLegalMatch_self (c : Bool) (m : Move) :
    ∀ L : List Move, m ∈ L →
      L.Pairwise (fun x y => format_move x c ≠ format_move y c) →
      firstLegalMatch c (format_move m c) L = m := by
  intro L
  induction L with
  | nil => intro h; cases h
  | cons a L ih =>
    intro hm hp
    rw [firstLegalMatch]
    by_cases he : format_move m c = format_move a c
    · rw [if_pos he]
      rcases List.mem_cons.mp hm with h | h
      · exact h.symm
      · exact absurd he.symm ((List.pairwise_cons.mp hp).1 m h)
    · rw [if_neg he]
      rcases List.mem_cons.mp hm with h | h
      · exact absurd (by rw [h]) he
      · exact ih h (List.pairwise_cons.mp hp).2

/-- C1: round trip of the coordinate codec — formatting a legal move with
the position's Chess960 flag and parsing the result with `to_move` returns
the move itself.  The legality oracle is external to the sources, so the
chess fact that distinct legal moves of a reachable position format to
distinct coordinate strings enters as the pairwise-distinctness hypothesis;
`to_move` returns the first exact match of the legal-move scan. -/
theorem to_move_format_move_roundtrip (pos : Position) (m : Move)
    (hm : m ∈ pos.legal)
    (hinj : pos.legal.Pairwise
      (fun x y => format_move x pos.chess960 ≠ format_move y pos.chess960)) :
    (to_move pos (format_move m pos.chess960)).1 = m := by
  show firstLegalMatch pos.chess960 (lowerFifth (format_move m pos.chess960)) pos.legal = m
  rw [lowerFifth_format]
  exact firstLegalMatch_self _ _ _ hm hinj

theorem to_move_format_move_roundtrip_w :
    (to_move PStart (format_move mvE2E4 false)).1 = mvE2E4 :=
  to_move_format_move_roundtrip PStart mvE2E4 (by decide) (by decide)


/-- C3: the check/mate suffix of `move_to_san` is determined by
hypothetically applying the move: `+` when the resulting position is in check
and has a legal reply, `#` when in check with none, nothing when not in
check; and the position handed back after the call is the input position
itself (same key, same legal-move list). -/
theorem move_to_san_check_suffix (pos : Position) (m : Move)
    (h1 : m ≠ MOVE_NONE) (h2 : m ≠ MOVE_NULL) :
    ((pos.after m).inCheck = true → (pos.after m).legalReplies ≠ [] →
       (move_to_san pos m).1 = sanBody pos m ++ "+")
    ∧ ((pos.after m).inCheck = true → (pos.after m).legalReplies = [] →
       (move_to_san pos m).1 = sanBody pos m ++ "#")
    ∧ ((pos.after m).inCheck = false → (move_to_san pos m).1 = sanBody pos m)
    ∧ (move_to_san pos m).2 = pos
    ∧ (move_to_san pos m).2.key = pos.key
    ∧ (move_to_san pos m).2.legal = pos.legal := by
  unfold move_to_san gives_check
  rw [if_neg h1, if_neg h2]
  refine ⟨?_, ?_, ?_, ?_, ?_, ?_⟩
  · intro hc hr
    simp [hc, hr]
  · intro hc hr
    simp [hc, hr]
  · intro hc
    simp [hc]
  · by_cases hc : (pos.after m).inCheck = true <;> simp [hc]
  · by_cases hc : (pos.after m).inCheck = true <;> simp [hc]
  · by_cases hc : (pos.after m).inCheck = true <;> simp [hc]

theorem move_to_san_check_suffix_w :
    (move_to_san P3 mvQ).1 = "Qe5#" ∧ (move_to_san P3 mvQ).2 = P3 := by
  have h := move_to_san_check_suffix P3 mvQ (by decide) (by decide)
  exact ⟨(h.2.1 rfl rfl).trans (by decide), h.2.2.2.1⟩


/-- Helper: the single-bit board of a square. -/
theorem testBit_one_shl (n i : Nat) : (1 <<< n).testBit i = decide (i = n) := by
  rw [Nat.shiftLeft_eq, one_mul, Nat.testBit_two_pow]
  by_cases h : n = i
  · simp [h]
  · simp [h, Ne.symm h]

/-- Helper: the bitwise effect of clearing one square with an xor. -/
theorem testBit_xor_shl (acc a i : Nat) :
    (acc ^^^ 1 <<< a).testBit i = ((acc.testBit i).xor (decide (i = a))) := by
  rw [Nat.testBit_xor, testBit_one_shl]

/-- Helper: bitwise effect of the conditional-clear fold underlying the SAN
candidate filter. -/
theorem foldClear_testBit (cond : Nat → Bool) (b : Nat) :
    ∀ L : List Nat, L.Nodup → ∀ acc i : Nat,
      ((L.foldl (fun a s => if b.testBit s && cond s then a ^^^ (1 <<< s) else a) acc).testBit i)
      = ((acc.testBit i).xor (decide (i ∈ L) && (b.testBit i && cond i))) := by
  intro L
  induction L with
  | nil => intro _ acc i; simp
  | cons a L ih =>
    intro hnd acc i
    rw [List.foldl_cons, ih (List.nodup_cons.mp hnd).2]
    have step : (if b.testBit a && cond a then acc ^^^ (1 <<< a) else acc).testBit i
        = ((acc.testBit i).xor (decide (i = a) && (b.testBit i && cond i))) := by
      by_cases hia : i = a
      · subst hia
        cases hc : (b.testBit i && cond i)
        · simp
        · rw [if_pos rfl, testBit_xor_shl]
          simp
      · cases hcc : (b.testBit a && cond a)
        · simp [hia]
        · rw [if_pos rfl, testBit_xor_shl]
          simp [hia]
    rw [step]
    by_cases hia : i = a
    · subst hia
      have hq : i ∉ L := (List.nodup_cons.mp hnd).1
      simp [hq, Bool.xor_assoc]
    · simp [hia, List.mem_cons, Bool.xor_assoc]

/-- Helper: the bits of the filtered candidate board, inside the board. -/
theorem sanOthersFilter_testBit_lt (pos : Position) (t b i : Nat) (hi : i < 64) :
    (sanOthersFilter pos t b).testBit i
      = (b.testBit i && pos.legalPin (make_move i t) (pos.pinnedPieces pos.sideToMove)) := by
  unfold sanOthersFilter
  rw [foldClear_testBit _ _ _ (List.nodup_range 64)]
  have hm : decide (i ∈ List.range 64) = true := by simp [List.mem_range, hi]
  rw [hm]
  cases hb : b.testBit i <;>
    cases hl : pos.legalPin (make_move i t) (pos.pinnedPieces pos.sideToMove) <;>
      simp [hb, hl]

/-- Helper: the bits of the filtered candidate board, outside the board. -/
theorem sanOthersFilter_testBit_ge (pos : Position) (t b i : Nat) (hi : 64 ≤ i) :
    (sanOthersFilter pos t b).testBit i = b.testBit i := by
  unfold sanOthersFilter
  rw [foldClear_testBit _ _ _ (List.nodup_range 64)]
  have hm : decide (i ∈ List.range 64) = false := by
    simp [List.mem_range]
    omega
  rw [hm]
  simp

/-- Helper: a natural is zero exactly when it has no set bit. -/
theorem eq_zero_iff_testBit (x : Nat) : x = 0 ↔ ∀ i, x.testBit i = false := by
  constructor
  · intro h i; rw [h, Nat.zero_testBit]
  · intro h
    refine Nat.eq_of_testBit_eq fun i => ?_
    rw [h, Nat.zero_testBit]

/-- Helper: a bitboard intersection is empty exactly when no bit is shared. -/
theorem land_eq_zero_iff (x y : Nat) :
    x &&& y = 0 ↔ ∀ i, (x.testBit i && y.testBit i) = false := by
  rw [eq_zero_iff_testBit]
  constructor
  · intro h i; rw [← Nat.testBit_and]; exact h i
  · intro h i; rw [Nat.testBit_and]; exact h i

/-- Helper: membership in a file bitboard. -/
theorem fileBBn_testBit (f i : Nat) (hf : f < 8) :
    (fileBBn f).testBit i = true ↔ i < 64 ∧ i % 8 = f := by
  have hr : List.range 8 = [ 0, 1, 2, 3, 4, 5, 6, 7 ] := rfl
  rw [fileBBn, hr]
  simp only [List.foldl_cons, List.foldl_nil, Nat.testBit_or, testBit_one_shl, Nat.zero_testBit,
    Bool.false_or, Bool.or_eq_true, decide_eq_true_eq]
  constructor
  · rintro (h | h | h | h | h | h | h | h) <;> omega
  · intro h; omega

/-- Helper: membership in a rank bitboard. -/
theorem rankBBn_testBit (r i : Nat) (hr : r < 8) :
    (rankBBn r).testBit i = true ↔ i < 64 ∧ i / 8 = r := by
  have he : List.range 8 = [ 0, 1, 2, 3, 4, 5, 6, 7 ] := rfl
  rw [rankBBn, he]
  simp only [List.foldl_cons, List.foldl_nil, Nat.testBit_or, testBit_one_shl, Nat.zero_testBit,
    Bool.false_or, Bool.or_eq_true, decide_eq_true_eq]
  constructor
  · rintro (h | h | h | h | h | h | h | h) <;> omega
  · intro h; omega


/-- C4: for a legal non-castling move of a non-pawn piece, `move_to_san`
emits the piece letter, then a disambiguator chosen from the set of
same-type, same-color pieces other than the mover that attack the
destination and pass the pin-legality test: nothing when the set is empty,
the origin file letter when no member shares the mover's file, else the
origin rank digit when no member shares the mover's rank, else the full
origin square — in that precedence order. -/
theorem move_to_san_disambiguation (pos : Position) (m : Move) (pt : Nat)
    (hptv : pos.pieceTypeOn m.fromSq = pt)
    (h1 : m ≠ MOVE_NONE) (h2 : m ≠ MOVE_NULL) (hk : m.kind ≠ MoveKind.castling)
    (hpawn : pt ≠ PAWN)
    (hf64 : m.fromSq < 64)
    (hA : pos.attacksFrom pt m.toSq &&& pos.pieces pos.sideToMove pt < 2 ^ 64)
    (hfA : (pos.attacksFrom pt m.toSq &&& pos.pieces pos.sideToMove pt).testBit m.fromSq
            = true) :
    (move_to_san pos m).1
      = String.mk [ pieceChar pt ] ++ sanDisambig pos pt m.fromSq m.toSq ++ sanTail pos m
    ∧ ((∀ s, ¬ sanRival pos pt m.fromSq m.toSq s) →
        sanDisambig pos pt m.fromSq m.toSq = "")
    ∧ (((∃ s, sanRival pos pt m.fromSq m.toSq s)
        ∧ ∀ s, sanRival pos pt m.fromSq m.toSq s → file_of s ≠ file_of m.fromSq) →
        sanDisambig pos pt m.fromSq m.toSq = String.mk [ fileChar m.fromSq ])
    ∧ (((∃ s, sanRival pos pt m.fromSq m.toSq s ∧ file_of s = file_of m.fromSq)
        ∧ ∀ s, sanRival pos pt m.fromSq m.toSq s → rank_of s ≠ rank_of m.fromSq) →
        sanDisambig pos pt m.fromSq m.toSq = String.mk [ rankChar m.fromSq ])
    ∧ (((∃ s, sanRival pos pt m.fromSq m.toSq s ∧ file_of s = file_of m.fromSq)
        ∧ (∃ s, sanRival pos pt m.fromSq m.toSq s ∧ rank_of s = rank_of m.fromSq)) →
        sanDisambig pos pt m.fromSq m.toSq = format_square m.fromSq) := by
  have hb0 : (pos.attacksFrom pt m.toSq &&& pos.pieces pos.sideToMove pt) ^^^ (1 <<< m.fromSq)
      < 2 ^ 64 := by
    refine Nat.xor_lt_two_pow hA ?_
    rw [Nat.shiftLeft_eq, one_mul]
    exact Nat.pow_lt_pow_right (by norm_num) hf64
  have key : ∀ i,
      ((sanOthersFilter pos m.toSq
        ((pos.attacksFrom pt m.toSq &&& pos.pieces pos.sideToMove pt) ^^^ (1 <<< m.fromSq))).testBit i
        = true)
      ↔ sanRival pos pt m.fromSq m.toSq i := by
    intro i
    by_cases hi : i < 64
    · rw [sanOthersFilter_testBit_lt pos m.toSq _ i hi]
      constructor
      · intro h
        rw [Bool.and_eq_true] at h
        obtain ⟨hb, hl⟩ := h
        rw [testBit_xor_shl] at hb
        by_cases hif : i = m.fromSq
        · subst hif
          rw [hfA] at hb
          simp at hb
        · simp only [hif, decide_False, Bool.xor_false] at hb
          exact ⟨hi, hif, hb, hl⟩
      · rintro ⟨_, hif, hbit, hl⟩
        rw [testBit_xor_shl]
        simp [hbit, hif, hl]
    · constructor
      · intro h
        exfalso
        rw [sanOthersFilter_testBit_ge pos m.toSq _ i (by omega)] at h
        have hz : ((pos.attacksFrom pt m.toSq &&& pos.pieces pos.sideToMove pt)
            ^^^ (1 <<< m.fromSq)).testBit i = false :=
          Nat.testBit_eq_false_of_lt
            (lt_of_lt_of_le hb0 (Nat.pow_le_pow_right (by norm_num) (by omega)))
        rw [hz] at h
        exact absurd h (by simp)
      · rintro ⟨h64, _⟩
        omega
  have hzero :
      (sanOthersFilter pos m.toSq
        ((pos.attacksFrom pt m.toSq &&& pos.pieces pos.sideToMove pt) ^^^ (1 <<< m.fromSq)) = 0)
      ↔ ∀ s, ¬ sanRival pos pt m.fromSq m.toSq s := by
    rw [eq_zero_iff_testBit]
    constructor
    · intro h s hs
      have hx := (key s).mpr hs
      rw [h s] at hx
      exact absurd hx (by simp)
    · intro h i
      cases hx : (sanOthersFilter pos m.toSq _).testBit i
      · rfl
      · exact absurd ((key i).mp hx) (h i)
  have hfile :
      (sanOthersFilter pos m.toSq
        ((pos.attacksFrom pt m.toSq &&& pos.pieces pos.sideToMove pt) ^^^ (1 <<< m.fromSq))
        &&& fileBBn (file_of m.fromSq) = 0)
      ↔ ∀ s, sanRival pos pt m.fromSq m.toSq s → file_of s ≠ file_of m.fromSq := by
    rw [land_eq_zero_iff]
    constructor
    · intro h s hs heq
      have hb := (key s).mpr hs
      have hfb : (fileBBn (file_of m.fromSq)).testBit s = true :=
        (fileBBn_testBit _ _ (Nat.mod_lt _ (by norm_num))).mpr ⟨hs.1, heq⟩
      have hx := h s
      rw [hb, hfb] at hx
      exact absurd hx (by simp)
    · intro h i
      cases hb : (sanOthersFilter pos m.toSq _).testBit i
      · simp
      · cases hfb : (fileBBn (file_of m.fromSq)).testBit i
        · simp
        · exfalso
          have hs := (key i).mp hb
          have hfi := (fileBBn_testBit (file_of m.fromSq) i (Nat.mod_lt _ (by norm_num))).mp hfb
          exact h i hs hfi.2
  have hrank :
      (sanOthersFilter pos m.toSq
        ((pos.attacksFrom pt m.toSq &&& pos.pieces pos.sideToMove pt) ^^^ (1 <<< m.fromSq))
        &&& rankBBn (rank_of m.fromSq) = 0)
      ↔ ∀ s, sanRival pos pt m.fromSq m.toSq s → rank_of s ≠ rank_of m.fromSq := by
    rw [land_eq_zero_iff]
    constructor
    · intro h s hs heq
      have hb := (key s).mpr hs
      have hrb : (rankBBn (rank_of m.fromSq)).testBit s = true :=
        (rankBBn_testBit _ _ (show m.fromSq / 8 < 8 by omega)).mpr ⟨hs.1, heq⟩
      have hx := h s
      rw [hb, hrb] at hx
      exact absurd hx (by simp)
    · intro h i
      cases hb : (sanOthersFilter pos m.toSq _).testBit i
      · simp
      · cases hrb : (rankBBn (rank_of m.fromSq)).testBit i
        · simp
        · exfalso
          have hs := (key i).mp hb
          have hri := (rankBBn_testBit (rank_of m.fromSq) i (show m.fromSq / 8 < 8 by omega)).mp hrb
          exact h i hs hri.2
  refine ⟨?_, ?_, ?_, ?_, ?_⟩
  · unfold move_to_san sanBody sanTail
    rw [if_neg h1, if_neg h2]
    simp only [hptv, if_neg hk, if_pos hpawn]
    by_cases hcap : pos.isCapture m <;> by_cases hpr : m.kind = MoveKind.promotion <;>
      by_cases hgc : gives_check pos m <;>
        simp [hcap, hpr, hgc, String.append_assoc]
  · intro hno
    show (if sanOthersFilter pos m.toSq
            ((pos.attacksFrom pt m.toSq &&& pos.pieces pos.sideToMove pt) ^^^ (1 <<< m.fromSq))
            = 0 then ""
          else if _ &&& fileBBn (file_of m.fromSq) = 0 then String.mk [ fileChar m.fromSq ]
          else if _ &&& rankBBn (rank_of m.fromSq) = 0 then String.mk [ rankChar m.fromSq ]
          else format_square m.fromSq) = ""
    rw [if_pos (hzero.mpr hno)]
  · rintro ⟨⟨s, hs⟩, hnofile⟩
    have hO : sanOthersFilter pos m.toSq
        ((pos.attacksFrom pt m.toSq &&& pos.pieces pos.sideToMove pt) ^^^ (1 <<< m.fromSq))
        ≠ 0 := by
      intro h
      exact (hzero.mp h) s hs
    show (if _ = 0 then ""
          else if _ &&& fileBBn (file_of m.fromSq) = 0 then String.mk [ fileChar m.fromSq ]
          else if _ &&& rankBBn (rank_of m.fromSq) = 0 then String.mk [ rankChar m.fromSq ]
          else format_square m.fromSq) = String.mk [ fileChar m.fromSq ]
    rw [if_neg hO, if_pos (hfile.mpr hnofile)]
  · rintro ⟨⟨s, hs, hsf⟩, hnorank⟩
    have hO : sanOthersFilter pos m.toSq
        ((pos.attacksFrom pt m.toSq &&& pos.pieces pos.sideToMove pt) ^^^ (1 <<< m.fromSq))
        ≠ 0 := by
      intro h
      exact (hzero.mp h) s hs
    have hF : ¬ (sanOthersFilter pos m.toSq
        ((pos.attacksFrom pt m.toSq &&& pos.pieces pos.sideToMove pt) ^^^ (1 <<< m.fromSq))
        &&& fileBBn (file_of m.fromSq) = 0) := by
      intro h
      exact (hfile.mp h) s hs hsf
    show (if _ = 0 then ""
          else if _ &&& fileBBn (file_of m.fromSq) = 0 then String.mk [ fileChar m.fromSq ]
          else if _ &&& rankBBn (rank_of m.fromSq) = 0 then String.mk [ rankChar m.fromSq ]
          else format_square m.fromSq) = String.mk [ rankChar m.fromSq ]
    rw [if_neg hO, if_neg hF, if_pos (hrank.mpr hnorank)]
  · rintro ⟨⟨s, hs, hsf⟩, ⟨u, hu, hur⟩⟩
    have hO : sanOthersFilter pos m.toSq
        ((pos.attacksFrom pt m.toSq &&& pos.pieces pos.sideToMove pt) ^^^ (1 <<< m.fromSq))
        ≠ 0 := by
      intro h
      exact (hzero.mp h) s hs
    have hF : ¬ (sanOthersFilter pos m.toSq
        ((pos.attacksFrom pt m.toSq &&& pos.pieces pos.sideToMove pt) ^^^ (1 <<< m.fromSq))
        &&& fileBBn (file_of m.fromSq) = 0) := by
      intro h
      exact (hfile.mp h) s hs hsf
    have hR : ¬ (sanOthersFilter pos m.toSq
        ((pos.attacksFrom pt m.toSq &&& pos.pieces pos.sideToMove pt) ^^^ (1 <<< m.fromSq))
        &&& rankBBn (rank_of m.fromSq) = 0) := by
      intro h
      exact (hrank.mp h) u hu hur
    show (if _ = 0 then ""
          else if _ &&& fileBBn (file_of m.fromSq) = 0 then String.mk [ fileChar m.fromSq ]
          else if _ &&& rankBBn (rank_of m.fromSq) = 0 then String.mk [ rankChar m.fromSq ]
          else format_square m.fromSq) = format_square m.fromSq
    rw [if_neg hO, if_neg hF, if_neg hR]


theorem move_to_san_disambiguation_w : (move_to_san P4 mvR).1 = "Rad4" := by
  have h := move_to_san_disambiguation P4 mvR 4 rfl (by decide) (by decide) (by decide)
    (by decide) (by decide) (by norm_num [P4]) (by decide)
  have hd : sanDisambig P4 4 mvR.fromSq mvR.toSq = String.mk [ fileChar mvR.fromSq ] := by
    apply h.2.2.1
    constructor
    · exact ⟨3, by decide, by decide, by decide, by decide⟩
    · intro s hs
      obtain ⟨h64, hne, hbit, _⟩ := hs
      have h3 : s = 3 := by
        interval_cases s <;> revert hne hbit <;> decide
      subst h3
      decide
  rw [h.1, hd]
  decide


/-- Helper: `go()` aborts its token loop on a numeric-parse failure. -/
theorem goLoop_num_fail (pos : Position) (kw bad : String) (r : List String)
    (limits : LimitsType) (fuel : Nat)
    (hkw : kw ∈ numericKws) (hbad : intOfToken bad = Option.none) (hfuel : 2 ≤ fuel) :
    goLoop pos fuel {toks := kw :: bad :: r, fail := false} limits
      = setNumField kw 0 limits := by
  match fuel, hfuel with
  | n + 2, _ =>
    fin_cases hkw <;>
      simp [goLoop, readTok, readIntTok, hbad, setNumField, numericKws,
        strWtime, strBtime, strWinc, strBinc, strMovestogo, strDepth, strNodes,
        strMovetime, strMate, strSearchmoves]

/-- C5 (amended): a numeric `go` argument that fails integer extraction
leaves the corresponding limits field unset (zero) and raises no error, but
the failed stream ends the token loop, so every remaining token of the line
is ignored (the result does not depend on `r`). -/
theorem go_numeric_failure_stops (pos : Position) (kw bad : String) (r : List String)
    (hkw : kw ∈ numericKws) (hbad : intOfToken bad = Option.none) :
    goParse pos (kw :: bad :: r) = setNumField kw 0 {} := by
  unfold goParse
  refine goLoop_num_fail pos kw bad r {} _ hkw hbad ?_
  show 2 ≤ tokBudget (kw :: bad :: r)
  simp [tokBudget]
  omega

theorem go_numeric_failure_stops_w :
    goParse P0 (strDepth :: badTok :: []) = setNumField strDepth 0 {} :=
  go_numeric_failure_stops P0 strDepth badTok [] (by decide) (by decide)

/-- C5 counterexample: on `go wtime abc depth 5` the engine leaves `depth`
unset, whereas the claimed continue-on-failure parser would set it to 5 —
parsing does not continue past a malformed numeric argument. -/
theorem go_numeric_failure_cex :
    (goParse P0 cexToks).depth = 0
    ∧ (goSpecParse P0 cexToks).depth = 5
    ∧ goParse P0 cexToks ≠ goSpecParse P0 cexToks := by decide

/-- C6 counterexample: on `go searchmoves zzzz e2e4` the searchmoves run
keeps consuming after the unresolvable token and records the none-sentinel
in the move list, contradicting the claim that every move-list-building
caller stops at the first unresolvable token. -/
theorem searchmoves_records_sentinel_cex :
    (goParse P1 smToks).searchmoves = [ MOVE_NONE, mvE2E4 ]
    ∧ MOVE_NONE ∈ (goParse P1 smToks).searchmoves := by decide

/-- Helper: the `position` replay never records the none-sentinel. -/
theorem replayMoves_no_sentinel (legalOf : SPos → List Move) :
    ∀ (toks : List String) (p : SPos), MOVE_NONE ∉ (replayMoves legalOf p toks).2 := by
  intro toks
  induction toks with
  | nil => intro p; simp [replayMoves]
  | cons t r ih =>
    intro p
    simp only [replayMoves]
    by_cases hm : (to_move (toPos legalOf p) t).1 = MOVE_NONE
    · simp [hm]
    · rw [if_neg hm]
      intro hmem
      rcases List.mem_cons.mp hmem with h | h
      · exact hm h.symm
      · exact ih (SPos.mv p (to_move (toPos legalOf p) t).1) h

/-- Helper: the `searchmoves` run records `to_move`'s answer for every
remaining token. -/
theorem goSearchmoves_map (pos : Position) :
    ∀ toks : List String, goSearchmoves pos toks = toks.map (fun t => (to_move pos t).1) := by
  intro toks
  induction toks with
  | nil => rfl
  | cons t r ih => simp [goSearchmoves, ih]

/-- C6 (amended): the `position` setup-move replay stops consuming at the
first unresolvable token and never records the none-sentinel, while the
`go searchmoves` run consumes every remaining token and records `to_move`'s
result for each one, sentinels included. -/
theorem move_list_consumption_amended (legalOf : SPos → List Move) (p : SPos)
    (toks : List String) (pos : Position) :
    MOVE_NONE ∉ (replayMoves legalOf p toks).2
    ∧ (∀ t rest, toks = t :: rest → (to_move (toPos legalOf p) t).1 = MOVE_NONE →
        replayMoves legalOf p toks = (p, []))
    ∧ goSearchmoves pos toks = toks.map (fun t => (to_move pos t).1) := by
  refine ⟨replayMoves_no_sentinel legalOf toks p, ?_, goSearchmoves_map pos toks⟩
  intro t rest h hm
  subst h
  simp only [replayMoves]
  rw [if_pos hm]

theorem move_list_consumption_amended_w :
    replayMoves legalW (SPos.flip (SPos.set StartFEN false)) mvToksW
      = (SPos.flip (SPos.set StartFEN false), []) :=
  (move_list_consumption_amended legalW (SPos.flip (SPos.set StartFEN false)) mvToksW P1).2.1
    (r"e2e4") [ r"zzzz" ] rfl (by decide)

/-- Helper: the replay's final position is the fold of its applied moves. -/
theorem replayMoves_foldl (legalOf : SPos → List Move) :
    ∀ (toks : List String) (p : SPos),
      (replayMoves legalOf p toks).1 = (replayMoves legalOf p toks).2.foldl SPos.mv p := by
  intro toks
  induction toks with
  | nil => intro p; rfl
  | cons t r ih =>
    intro p
    simp only [replayMoves]
    by_cases hm : (to_move (toPos legalOf p) t).1 = MOVE_NONE
    · simp [hm]
    · rw [if_neg hm]
      simp only [List.foldl_cons]
      exact ih (SPos.mv p (to_move (toPos legalOf p) t).1)

/-- Helper: an accepted `position` command leaves the held position equal to
the replay of the record it returns; a rejected one leaves it untouched. -/
theorem position_record (legalOf : SPos → List Move) (opts : List (String × String))
    (p : SPos) (toks : List String) :
    (position legalOf opts p toks).1
      = (match (position legalOf opts p toks).2 with
         | Option.none => p
         | some rec => replayRecord rec.1 rec.2.1 rec.2.2) := by
  cases toks with
  | nil => rfl
  | cons t rest =>
    simp only [position]
    by_cases ht : t = strStartpos
    · rw [if_pos ht]
      exact replayMoves_foldl legalOf (rest.drop 1) (SPos.set StartFEN (optBool opts chess960Key))
    · rw [if_neg ht]
      by_cases hf : t = strFen
      · rw [if_pos hf]
        exact replayMoves_foldl legalOf (collectFen rest).2
          (SPos.set (collectFen rest).1 (optBool opts chess960Key))
      · rw [if_neg hf]

/-- C2 (amended): processing any command line whose first token is not
`flip` preserves the invariant that the held position equals the FEN plus
applied setup-move list of the most recent accepted `position` command (the
standard initial position when none was accepted). -/
theorem command_preserves_position_invariant (legalOf : SPos → List Move)
    (s : DState) (line : List String)
    (hinv : heldInv s) (hflip : line.headD strEmpty ≠ strFlip) :
    heldInv (command legalOf s line).1 := by
  show heldInv (commandCore legalOf s (line.headD strEmpty) line.tail line).1
  delta commandCore
  by_cases h1 : line.headD strEmpty = "quit" ∨ line.headD strEmpty = "stop"
      ∨ line.headD strEmpty = "ponderhit"
  · rw [if_pos h1]; exact hinv
  rw [if_neg h1]
  by_cases h2 : line.headD strEmpty = "perft"
  · rw [if_pos h2]; exact hinv
  rw [if_neg h2]
  by_cases h3 : line.headD strEmpty = "key"
  · rw [if_pos h3]; exact hinv
  rw [if_neg h3]
  by_cases h4 : line.headD strEmpty = "uci"
  · rw [if_pos h4]; exact hinv
  rw [if_neg h4]
  by_cases h5 : line.headD strEmpty = "ucinewgame"
  · rw [if_pos h5]; exact hinv
  rw [if_neg h5]
  by_cases h6 : line.headD strEmpty = "go"
  · rw [if_pos h6]; exact hinv
  rw [if_neg h6]
  by_cases h7 : line.headD strEmpty = "position"
  · rw [if_pos h7]
    show heldInv
      { pos := (position legalOf s.opts s.pos line.tail).1, opts := s.opts,
        lastAccepted := match (position legalOf s.opts s.pos line.tail).2 with
                        | Option.none => s.lastAccepted
                        | some r => some r }
    have hp := position_record legalOf s.opts s.pos line.tail
    cases hres : (position legalOf s.opts s.pos line.tail).2 with
    | none =>
      rw [hres] at hp
      rw [hp]
      exact hinv
    | some rec =>
      rw [hres] at hp
      rw [hp]
  rw [if_neg h7]
  by_cases h8 : line.headD strEmpty = "setoption"
  · rw [if_pos h8]; exact hinv
  rw [if_neg h8]
  by_cases h9 : line.headD strEmpty = "flip"
  · exact absurd h9 hflip
  rw [if_neg h9]
  by_cases h10 : line.headD strEmpty = "bench"
  · rw [if_pos h10]; exact hinv
  rw [if_neg h10]
  by_cases h11 : line.headD strEmpty = "d"
  · rw [if_pos h11]; exact hinv
  rw [if_neg h11]
  by_cases h12 : line.headD strEmpty = "isready"
  · rw [if_pos h12]; exact hinv
  rw [if_neg h12]
  by_cases h13 : line.headD strEmpty = "eval"
  · rw [if_pos h13]; exact hinv
  rw [if_neg h13]
  exact hinv


theorem command_preserves_position_invariant_w :
    heldInv (command legalW (commandInit []) posCmdW).1 :=
  command_preserves_position_invariant legalW (commandInit []) posCmdW
    (by decide) (by decide)

/-- C2 counterexample: processing `flip` replaces the held position by its
mirror, so immediately afterwards the held position no longer equals the
position determined by the most recent accepted `position` command — the
claimed invariant fails over `flip`. -/
theorem flip_breaks_position_invariant :
    ¬ heldInv (command (fun _ => []) (commandInit []) [ strFlip ]).1 := by decide

end SF
